import Mathlib

/-!
Verification development for the AST utilities (`lib/util/ast.js`) and the
prop-type sort rule (`sort-prop-types`) of this repository.

The JavaScript source is shallowly embedded: AST nodes become explicit Lean
structures, JS arrays become lists, JS `false`/"absent" results become
dedicated constructors or `Option`, and the two unbounded traversals
(the parent walk and the statement reducer) take an explicit fuel argument,
returning `none` when the fuel runs out.
-/

namespace ReactAst

/-! ## Model of the declarations handled by `checkSorted` (sort-prop-types) -/

/-- One element of the declaration sequence passed to `checkSorted`.
`type` is the AST node kind tag (`Property`, `SpreadElement`, ...).
`keyValue` models `node.key.value` (present when the key is a literal with a
value); `sourceText` models `context.getSourceCode().getText(node.key ||
node.argument)`; `valuePropName` models `node.value.property.name` (present
when the value is a member access). -/
structure SortDecl where
  id : Nat
  type : String
  keyValue : Option String
  sourceText : String
  valuePropName : Option String
deriving DecidableEq

/-- A diagnostic passed to `context.report`: the offending node and the
message. -/
structure Report where
  node : Nat
  message : String
deriving DecidableEq

/-- The rule options read by `sort-prop-types` (each defaults to `false`). -/
structure SortPolicy where
  requiredFirst : Bool
  callbacksLast : Bool
  ignoreCase : Bool
  noSortAlphabetically : Bool
deriving DecidableEq

/-- Source `getKey`: `node.key.value` when the key carries a literal value,
otherwise the source text of `node.key || node.argument`. -/
def getKey (d : SortDecl) : String :=
  match d.keyValue with
  | some v => v
  | none => d.sourceText

/-- Source `getValueName`: `node.type === "Property" && node.value.property
&& node.value.property.name`. -/
def getValueName (d : SortDecl) : Option String :=
  if d.type = "Property" then d.valuePropName else none

/-- Source `isCallbackPropName`: the regex test `/^on[A-Z]/.test(propName)`. -/
def isCallbackPropName (propName : String) : Bool :=
  match propName.data with
  | c1 :: c2 :: c3 :: _ => c1 = 'o' && c2 = 'n' && 65 ≤ c3.toNat && c3.toNat ≤ 90
  | _ => false

/-- Source `isRequiredProp`: `getValueName(node) === "isRequired"`. -/
def isRequiredProp (d : SortDecl) : Bool :=
  getValueName d == some "isRequired"

/-- Source `toLowerCase`: `String(item).toLowerCase()` (modelled on the ASCII
range, which is all the comparisons below exercise). -/
def toLowerCase (s : String) : String :=
  String.mk (s.data.map Char.toLower)

/-- The JS `<` operator on strings: lexicographic comparison of the character
sequences by code unit. -/
def charListLt : List Char → List Char → Bool
  | [], [] => false
  | [], _ :: _ => true
  | _ :: _, [] => false
  | a :: as, b :: bs =>
    if a.toNat < b.toNat then true
    else if b.toNat < a.toNat then false
    else charListLt as bs

/-- The JS comparison `currentPropName < prevPropName` used by `checkSorted`. -/
def jsStringLt (s t : String) : Bool :=
  charListLt s.data t.data

/-- The body of the `declarations.reduce` callback in `checkSorted`: given the
accumulator (`prev`, the current baseline) and the current declaration plus its
index, produce the next baseline together with the diagnostics reported during
this step.  The JS accumulator can only be `undefined` when a spread is the
final element (then the iteration is already over), so the `none` branch below
is unreachable on the inputs the rule feeds it. -/
def stepPair (cfg : SortPolicy) (decls : List SortDecl) (prevOpt : Option SortDecl)
    (curr : SortDecl) (idx : Nat) : Option SortDecl × List Report :=
  if curr.type == "ExperimentalSpreadProperty" || curr.type == "SpreadElement" then
    (decls.get? (idx + 1), [])
  else
    match prevOpt with
    | none => (some curr, [])
    | some prev =>
      let prevPropName0 := getKey prev
      let currentPropName0 := getKey curr
      let previousIsRequired := isRequiredProp prev
      let currentIsRequired := isRequiredProp curr
      let previousIsCallback := isCallbackPropName prevPropName0
      let currentIsCallback := isCallbackPropName currentPropName0
      let prevPropName := if cfg.ignoreCase then toLowerCase prevPropName0 else prevPropName0
      let currentPropName := if cfg.ignoreCase then toLowerCase currentPropName0 else currentPropName0
      if cfg.requiredFirst && (previousIsRequired && !currentIsRequired) then
        (some curr, [])
      else if cfg.requiredFirst && (!previousIsRequired && currentIsRequired) then
        (some curr, [⟨curr.id, "Required prop types must be listed before all other prop types"⟩])
      else if cfg.callbacksLast && (!previousIsCallback && currentIsCallback) then
        (some curr, [])
      else if cfg.callbacksLast && (previousIsCallback && !currentIsCallback) then
        (some prev, [⟨prev.id, "Callback prop types must be listed after all other prop types"⟩])
      else if !cfg.noSortAlphabetically && jsStringLt currentPropName prevPropName then
        (some prev, [⟨curr.id, "Prop types declarations should be sorted alphabetically"⟩])
      else
        (some curr, [])

/-- The iteration of `declarations.reduce(..., declarations[0])`: JS visits
every element (index 0 included) when an initial accumulator is supplied, and
`context.report` appends diagnostics in visit order. -/
def checkSortedGo (cfg : SortPolicy) (decls : List SortDecl) :
    List SortDecl → Nat → Option SortDecl → List Report
  | [], _, _ => []
  | c :: cs, idx, prevOpt =>
    let r := stepPair cfg decls prevOpt c idx
    r.2 ++ checkSortedGo cfg decls cs (idx + 1) r.1

/-- Source `checkSorted` on a present declaration list: the reduce seeded with
`declarations[0]`, collecting the reported diagnostics.  (The early return for
an absent list reports nothing and is omitted: an absent list is `none` on the
caller side and never reaches the reduce.) -/
def checkSorted (cfg : SortPolicy) (decls : List SortDecl) : List Report :=
  checkSortedGo cfg decls decls 0 decls.head?

/-! ## Concrete declaration sequences used by the sort-rule claims -/

def c3policy : SortPolicy := ⟨false, true, false, false⟩

def c3onClick : SortDecl := ⟨1, "Property", some "onClick", "onClick", some "func"⟩

def c3value : SortDecl := ⟨2, "Property", some "value", "value", some "string"⟩

def c3onHover : SortDecl := ⟨3, "Property", some "onHover", "onHover", some "func"⟩

def c4policy : SortPolicy := ⟨true, false, false, false⟩

def c4plain : SortDecl := ⟨1, "Property", some "alpha", "alpha", some "string"⟩

def c4req : SortDecl := ⟨2, "Property", some "beta", "beta", some "isRequired"⟩

def c5policy : SortPolicy := ⟨true, false, false, false⟩

def c5a : SortDecl := ⟨1, "Property", some "a", "a", some "isRequired"⟩

def c5b : SortDecl := ⟨2, "Property", some "b", "b", some "string"⟩

def c5c : SortDecl := ⟨3, "Property", some "c", "c", some "isRequired"⟩

def c7policy : SortPolicy := ⟨false, false, false, false⟩

def c7b : SortDecl := ⟨1, "Property", some "b", "b", none⟩

def c7rest : SortDecl := ⟨2, "SpreadElement", none, "rest", none⟩

def c7a : SortDecl := ⟨3, "Property", some "a", "a", none⟩

def c9icPolicy : SortPolicy := ⟨false, false, true, false⟩

def c9csPolicy : SortPolicy := ⟨false, false, false, false⟩

def c9Banana : SortDecl := ⟨1, "Property", some "Banana", "Banana", none⟩

def c9apple : SortDecl := ⟨2, "Property", some "apple", "apple", none⟩

/-! ## Claims about the declaration-order validator -/

/-- C3: with `callbacksLast` enabled (and the required layer not claiming the
pair), a callback followed by a non-callback reports "Callback prop types must
be listed after all other prop types" on the earlier (callback) node and keeps
the earlier node as the baseline; a non-callback followed by a callback is
accepted silently with the callback becoming the new baseline; and on
`[onClick, value, onHover]` with `callbacksLast: true` exactly one diagnostic
fires, on `onClick`. -/
theorem c3_callbacks_last (cfg : SortPolicy) (decls : List SortDecl)
    (prev curr : SortDecl) (idx : Nat)
    (hcb : cfg.callbacksLast = true)
    (hspread : (curr.type == "ExperimentalSpreadProperty" || curr.type == "SpreadElement") = false)
    (hreq : cfg.requiredFirst = false ∨ isRequiredProp prev = isRequiredProp curr) :
    (isCallbackPropName (getKey prev) = true → isCallbackPropName (getKey curr) = false →
      stepPair cfg decls (some prev) curr idx =
        (some prev, [⟨prev.id, "Callback prop types must be listed after all other prop types"⟩]))
    ∧ (isCallbackPropName (getKey prev) = false → isCallbackPropName (getKey curr) = true →
      stepPair cfg decls (some prev) curr idx = (some curr, []))
    ∧ checkSorted c3policy [c3onClick, c3value, c3onHover] =
        [⟨1, "Callback prop types must be listed after all other prop types"⟩] := by
  refine ⟨?_, ?_, by decide⟩ <;> intro hp hc <;>
    rcases hreq with h | h <;>
      simp [stepPair, hspread, hp, hc, h, hcb]

/-- Witness for C3: the callback-to-non-callback pair `(onClick, value)`
reports on `onClick` (node 1) and keeps `onClick` as the baseline. -/
theorem c3_callbacks_last_witness :
    stepPair c3policy [] (some c3onClick) c3value 0 =
      (some c3onClick, [⟨1, "Callback prop types must be listed after all other prop types"⟩]) :=
  (c3_callbacks_last c3policy [] c3onClick c3value 0 rfl (by decide) (Or.inl rfl)).1
    (by decide) (by decide)

/-- C4: with `requiredFirst` enabled, the "Required prop types must be listed
before all other prop types" diagnostic fires exactly when a non-required
declaration is immediately followed by a required one, on the later (required)
node, which becomes the new baseline; required followed by non-required emits
nothing and makes the non-required node the baseline with no alphabetical
comparison for that pair. -/
theorem c4_required_first (cfg : SortPolicy) (decls : List SortDecl)
    (prev curr : SortDecl) (idx : Nat)
    (hrf : cfg.requiredFirst = true)
    (hspread : (curr.type == "ExperimentalSpreadProperty" || curr.type == "SpreadElement") = false) :
    (isRequiredProp prev = false → isRequiredProp curr = true →
      stepPair cfg decls (some prev) curr idx =
        (some curr, [⟨curr.id, "Required prop types must be listed before all other prop types"⟩]))
    ∧ (isRequiredProp prev = true → isRequiredProp curr = false →
      stepPair cfg decls (some prev) curr idx = (some curr, []))
    ∧ (isRequiredProp prev = isRequiredProp curr →
      ∀ r ∈ (stepPair cfg decls (some prev) curr idx).2,
        r.message ≠ "Required prop types must be listed before all other prop types") := by
  refine ⟨?_, ?_, ?_⟩
  · intro hp hc
    simp [stepPair, hspread, hp, hc, hrf]
  · intro hp hc
    simp [stepPair, hspread, hp, hc, hrf]
  · intro h r hr
    simp only [stepPair, hspread, h] at hr
    simp only [Bool.and_not_self, Bool.not_and_self, Bool.and_false, Bool.false_eq_true,
      if_false] at hr
    split at hr <;> (try split at hr) <;> (try split at hr) <;> (try split at hr) <;> simp_all

/-- Witness for C4: the non-required/required pair `(alpha, beta.isRequired)`
reports on the later node 2, which becomes the baseline. -/
theorem c4_required_first_witness :
    stepPair c4policy [] (some c4plain) c4req 0 =
      (some c4req, [⟨2, "Required prop types must be listed before all other prop types"⟩]) :=
  (c4_required_first c4policy [] c4plain c4req 0 rfl (by decide)).1 (by decide) (by decide)

/-- C5 counterexample: on `[a (required), b (not required), c (required)]` with
`requiredFirst: true` the only diagnostic is on node 3 (`c`); no diagnostic is
ever reported on node 2 (`b`), contradicting the claim. -/
theorem c5_counterexample :
    checkSorted c5policy [c5a, c5b, c5c] =
      [⟨3, "Required prop types must be listed before all other prop types"⟩]
    ∧ ∀ r ∈ checkSorted c5policy [c5a, c5b, c5c], r.node ≠ 2 := by
  refine ⟨by decide, ?_⟩
  decide

/-- C5 amended: on `[a (required), b (not required), c (required)]` with
`requiredFirst: true`, the diagnostic fires on `c` (the later, required node
of the offending pair), not on `b`. -/
theorem c5_amended :
    checkSorted c5policy [c5a, c5b, c5c] =
      [⟨3, "Required prop types must be listed before all other prop types"⟩] := by
  decide

/-- C7: a spread element produces no comparison and resets the chain, making
the immediately following element the new baseline; and on `[b, ...rest, a]`
with only alphabetical checking enabled no diagnostic is reported. -/
theorem c7_spread_resets (cfg : SortPolicy) (decls : List SortDecl)
    (prevOpt : Option SortDecl) (curr : SortDecl) (idx : Nat)
    (hspread : (curr.type == "ExperimentalSpreadProperty" || curr.type == "SpreadElement") = true) :
    stepPair cfg decls prevOpt curr idx = (decls.get? (idx + 1), [])
    ∧ checkSorted c7policy [c7b, c7rest, c7a] = [] :=
  ⟨by simp [stepPair, hspread], by decide⟩

/-- Witness for C7: stepping over the spread `...rest` at index 1 of
`[b, ...rest, a]` yields baseline `a` and no report. -/
theorem c7_spread_resets_witness :
    stepPair c7policy [c7b, c7rest, c7a] (some c7b) c7rest 1 = (some c7a, []) :=
  ((c7_spread_resets c7policy [c7b, c7rest, c7a] (some c7b) c7rest 1 (by decide)).1).trans
    (by decide)

/-- C9: with alphabetical checking enabled (and neither the required nor the
callback layer claiming the pair), keys are compared case-sensitively, or
lower-cased first under `ignoreCase`; a "Prop types declarations should be
sorted alphabetically" diagnostic fires on the current node exactly when its
key sorts strictly before the previous key, and the previous node stays the
baseline; on `[Banana, apple]` a diagnostic fires on `apple` under
`ignoreCase: true` and none fires under `ignoreCase: false`. -/
theorem c9_alphabetical (cfg : SortPolicy) (decls : List SortDecl)
    (prev curr : SortDecl) (idx : Nat)
    (hnsa : cfg.noSortAlphabetically = false)
    (hspread : (curr.type == "ExperimentalSpreadProperty" || curr.type == "SpreadElement") = false)
    (hreq : cfg.requiredFirst = false ∨ isRequiredProp prev = isRequiredProp curr)
    (hcb : cfg.callbacksLast = false ∨
      isCallbackPropName (getKey prev) = isCallbackPropName (getKey curr)) :
    (jsStringLt (if cfg.ignoreCase then toLowerCase (getKey curr) else getKey curr)
        (if cfg.ignoreCase then toLowerCase (getKey prev) else getKey prev) = true →
      stepPair cfg decls (some prev) curr idx =
        (some prev, [⟨curr.id, "Prop types declarations should be sorted alphabetically"⟩]))
    ∧ (jsStringLt (if cfg.ignoreCase then toLowerCase (getKey curr) else getKey curr)
        (if cfg.ignoreCase then toLowerCase (getKey prev) else getKey prev) = false →
      stepPair cfg decls (some prev) curr idx = (some curr, []))
    ∧ checkSorted c9icPolicy [c9Banana, c9apple] =
        [⟨2, "Prop types declarations should be sorted alphabetically"⟩]
    ∧ checkSorted c9csPolicy [c9Banana, c9apple] = [] := by
  refine ⟨?_, ?_, by decide, by decide⟩ <;> intro hlt <;>
    rcases hreq with h1 | h1 <;> rcases hcb with h2 | h2 <;>
      simp [stepPair, hspread, hnsa, h1, h2, hlt]

/-- Witness for C9: under `ignoreCase: true` the pair `(Banana, apple)`
reports on `apple` (node 2) and keeps `Banana` as the baseline. -/
theorem c9_alphabetical_witness :
    stepPair c9icPolicy [] (some c9Banana) c9apple 0 =
      (some c9Banana, [⟨2, "Prop types declarations should be sorted alphabetically"⟩]) :=
  (c9_alphabetical c9icPolicy [] c9Banana c9apple 0 rfl (by decide) (Or.inl rfl)
    (Or.inl rfl)).1 (by decide)

/-! ## `stripQuotes` -/

/-- The single-quote character (code point 39). -/
def squote : Char := Char.ofNat 39

/-- Source `stripQuotes`: `string.replace` with a global regex matching a
quote anchored at the start or a quote anchored at the end.  The two
alternatives match independently, so the replacement drops one leading quote
if present and then one trailing quote if present — no matched pair is
required. -/
def stripQuotes (s : String) : String :=
  let cs := s.data
  let cs1 := match cs with
    | c :: rest => if c = squote then rest else cs
    | [] => []
  let cs2 := match cs1.reverse with
    | c :: rest => if c = squote then rest.reverse else cs1
    | [] => cs1
  String.mk cs2

/-- Rebuilding a string from its character list gives the string back. -/
theorem string_mk_data (s : String) : String.mk s.data = s := by
  cases s
  rfl

/-- C10 counterexample: a string with a leading single quote and no trailing
one is not returned unchanged — `stripQuotes` drops the unmatched leading
quote. -/
theorem c10_counterexample :
    stripQuotes (String.mk [squote, 'a', 'b', 'c']) = "abc"
    ∧ String.mk [squote, 'a', 'b', 'c'] ≠ "abc" := by
  decide

/-- C10 amended: `stripQuotes` removes a leading single quote and a trailing
single quote independently: a matched pair is fully stripped, a string with
neither is unchanged, and a string with only a leading (resp. only a
trailing) quote loses just that quote. -/
theorem c10_amended :
    (∀ t : String, stripQuotes (String.mk (squote :: (t.data ++ [squote]))) = t)
    ∧ (∀ t : String, t.data.head? ≠ some squote → t.data.getLast? ≠ some squote →
        stripQuotes t = t)
    ∧ (∀ t : String, t.data.getLast? ≠ some squote →
        stripQuotes (String.mk (squote :: t.data)) = t)
    ∧ (∀ t : String, t.data.head? ≠ some squote →
        stripQuotes (String.mk (t.data ++ [squote])) = t) := by
  refine ⟨?_, ?_, ?_, ?_⟩
  · intro t
    simp [stripQuotes, List.reverse_append, string_mk_data]
  · intro t h1 h2
    obtain ⟨l⟩ := t
    match l, h1, h2 with
    | [], _, _ => rfl
    | c :: rest, h1, h2 =>
      simp only [List.head?] at h1
      have hc : ¬ c = squote := by
        intro hh
        exact h1 (by simp [hh])
      rcases hrev : (c :: rest).reverse with _ | ⟨c2, r2⟩
      · simp at hrev
      · have hc2 : ¬ c2 = squote := by
          intro hh
          apply h2
          rw [← List.head?_reverse, hrev, hh]
          rfl
        simp only [stripQuotes, hc, if_false, hrev, hc2, string_mk_data]
  · intro t h2
    obtain ⟨l⟩ := t
    rcases hrev : l.reverse with _ | ⟨c2, r2⟩
    · have : l = [] := by simpa using congrArg List.reverse hrev
      subst this
      rfl
    · have hc2 : ¬ c2 = squote := by
        intro hh
        apply h2
        show l.getLast? = some squote
        rw [← List.head?_reverse, hrev, hh]
        rfl
      simp [stripQuotes, hrev, hc2, string_mk_data]
  · intro t h1
    obtain ⟨l⟩ := t
    match l, h1 with
    | [], _ =>
      simp [stripQuotes]
    | c :: rest, h1 =>
      simp only [List.head?] at h1
      have hc : ¬ c = squote := by
        intro hh
        exact h1 (by simp [hh])
      simp [stripQuotes, hc, List.reverse_append, string_mk_data]

/-- Witness for C10 amended: a quote-free string is returned unchanged. -/
theorem c10_amended_witness :
    stripQuotes "ab" = "ab" :=
  c10_amended.2.1 "ab" (by decide) (by decide)

/-! ## Arena model of the syntax tree

Nodes live in an arena and refer to each other (children and the non-owning
parent back-reference) by numeric identifier, as the design notes of the spec
prescribe for a tree with parent pointers.  Only the fields the embedded
functions read are modelled; an absent field is `none` (JS `null`/missing). -/

/-- A `SwitchCase`: only its `consequent` statement list is read. -/
structure SwitchCase where
  consequent : Option (List Nat)
deriving DecidableEq

/-- A syntax node.  `body` holds a node-valued body (function or loop body),
`bodyList` the statement array of a `BlockStatement`; `value` models the
method-definition value indirection; `cases` is only populated on switch
nodes. -/
structure Node where
  id : Nat
  type : String
  parent : Option Nat
  value : Option Nat
  expression : Option Nat
  consequent : Option Nat
  alternate : Option Nat
  body : Option Nat
  bodyList : Option (List Nat)
  cases : List SwitchCase
deriving DecidableEq

/-- The arena owning all nodes. -/
structure Arena where
  nodes : List Node
deriving DecidableEq

/-- Dereference a node id. -/
def getN (a : Arena) (i : Nat) : Option Node :=
  a.nodes.find? (fun n => n.id == i)

/-- Source `isFunctionType`: the anchored regex alternation over
`FunctionDeclaration`, `FunctionExpression` and `ArrowFunctionExpression`. -/
def isFunctionType (n : Node) : Bool :=
  n.type == "FunctionDeclaration" || n.type == "FunctionExpression" ||
    n.type == "ArrowFunctionExpression"

/-- Source `isSupportedBodyType`: the anchored regex alternation over the
while/do-while/for/for-in/for-of/if/expression statement kinds. -/
def isSupportedBodyType (n : Node) : Bool :=
  n.type == "WhileStatement" || n.type == "DoWhileStatement" ||
    n.type == "ForStatement" || n.type == "ForInStatement" ||
    n.type == "ForOfStatement" || n.type == "IfStatement" ||
    n.type == "ExpressionStatement"

/-! ## The return-surface resolver `findJSXReturnStatement` -/

/-- Sequence a fallible computation over a list, failing if any element
fails.  All failure here is fuel exhaustion introduced by the embedding; the
JS code itself cannot fail at these points. -/
def optionMapList {α β : Type} (f : α → Option β) : List α → Option (List β)
  | [] => some []
  | x :: xs =>
    match f x, optionMapList f xs with
    | some y, some ys => some (y :: ys)
    | _, _ => none

/-- Outcome of the upward `while (parent)` walk inside `loopNodes`:
`accept` models `return bnode`, `reject` models `return false` at a foreign
function boundary, `exhausted` models the chain ending (the walk falls
through to the checks after the loop), `fuelOut` means the fuel ran out. -/
inductive WalkRes where
  | accept
  | reject
  | exhausted
  | fuelOut
deriving DecidableEq

/-- The upward walk: starting at `bnode`, follow parent references; crossing a
function-like node other than the target rejects, reaching the target
accepts.  A dangling reference ends the chain. -/
def parentWalk (a : Arena) (target : Nat) : Nat → Option Nat → WalkRes
  | _, none => .exhausted
  | 0, some _ => .fuelOut
  | fuel + 1, some p =>
    let isFn := match getN a p with
      | some n => isFunctionType n
      | none => false
    if isFn && p != target then .reject
    else if p == target then .accept
    else parentWalk a target fuel ((getN a p).bind Node.parent)

/-- A `loopNodes` result: the JS value `false`, a single node, or an array of
nodes (the arrays built by the if and switch branches are filtered before
being returned and hold only nodes). -/
inductive LoopRes where
  | fls
  | one (i : Nat)
  | many (l : List Nat)
deriving DecidableEq

/-- The node ids of a `loopNodes` result surviving a JS `.filter((n) => n)`:
`false` is dropped, a node is kept, an array is spread. -/
def resToVals : LoopRes → List Nat
  | .fls => []
  | .one i => [i]
  | .many l => l

/-- The per-case callback of the switch branch of `loopNodes` (source: map
each non-empty consequent through `loopNodes` and flatten; an empty or absent
consequent yields `false`, which the trailing `.filter((n) => n)` removes, so
it is modelled as the empty contribution).  `rcall` is the recursive
`loopNodes` call at the current fuel; `none` propagates fuel exhaustion. -/
def switchCaseContrib (rcall : Option Nat → Option LoopRes) (sc : SwitchCase) :
    Option (List Nat) :=
  match sc.consequent with
  | some cons =>
    if cons.length != 0 then
      match optionMapList (fun i => rcall (some i)) cons with
      | some rs => some (rs.map resToVals).flatten
      | none => none
    else some []
  | none => some []

/-- The whole switch branch of `loopNodes`: every case contributes its own
flattened, filtered reduction, concatenated in case order. -/
def switchContrib (rcall : Option Nat → Option LoopRes) (cases : List SwitchCase) :
    Option (List Nat) :=
  match optionMapList (switchCaseContrib rcall) cases with
  | some ls => some ls.flatten
  | none => none

/-- The statement-kind checks of `loopNodes` after the first test (the code
the source runs when the first test does not match, or when the parent walk
falls out of its `while`).  `rcall` is the recursive `loopNodes` call at the
current fuel.  The source runs the final `.filter((n) => n)` of the if and
switch branches after flattening; filtering each element before flattening
(`resToVals`) is the same list. -/
def loopNodesRest (rcall : Option Nat → Option LoopRes) (a : Arena) (bnode : Node) :
    Option LoopRes :=
  if bnode.type == "ExpressionStatement" then
    match bnode.expression with
    | some e => some (.one e)
    | none => some .fls
  else if bnode.type == "IfStatement" then
    if bnode.alternate == none then
      match bnode.consequent.bind (getN a) with
      | some c =>
        if c.type != "BlockStatement" then rcall bnode.consequent
        else some .fls
      | none => some .fls
    else
      match optionMapList rcall
          ((match bnode.consequent.bind (getN a) with
            | some c => if c.type != "BlockStatement" then [bnode.consequent] else []
            | none => []) ++
           (match bnode.alternate.bind (getN a) with
            | some alt => if alt.type != "BlockStatement" then [bnode.alternate] else []
            | none => [])) with
      | some rs => some (.many (rs.map resToVals).flatten)
      | none => none
  else if isSupportedBodyType bnode &&
      (match bnode.body.bind (getN a) with
       | some b => b.type != "BlockStatement"
       | none => false) then
    rcall bnode.body
  else if bnode.type == "SwitchStatement" then
    match switchContrib rcall bnode.cases with
    | some l => some (.many l)
    | none => none
  else some .fls

/-- Source `loopNodes` (the recursive single-statement reducer).  The fuel
bounds the recursion depth and the parent walk; `none` models a computation
that ran out of fuel.  The `walked` value distinguishes the walk concluding
(`return bnode` or `return false`) from the chain ending, in which case the
source falls through to the statement-kind checks of `loopNodesRest`, exactly
as it does when the first test fails. -/
def loopNodes (a : Arena) (target : Nat) : Nat → Option Nat → Option LoopRes
  | _, none => some .fls
  | 0, some _ => none
  | fuel + 1, some bid =>
    match getN a bid with
    | none => some .fls
    | some bnode =>
      let walked : Option (Option LoopRes) :=
        if bnode.type == "ReturnStatement" || bnode.type == "YieldExpression" ||
            isFunctionType bnode then
          match parentWalk a target (fuel + 1) (some bid) with
          | .accept => some (some (.one bid))
          | .reject => some (some .fls)
          | .exhausted => none
          | .fuelOut => some none
        else none
      match walked with
      | some r => r
      | none => loopNodesRest (fun o => loopNodes a target fuel o) a bnode

/-- A lexical scope as handed over by the scope manager: its kind and the node
that introduces it. -/
structure Scope where
  type : String
  block : Nat
deriving DecidableEq

/-- What one scope adds to the candidate set: JS `null`, a single node, or an
array of nodes. -/
inductive ScopeContrib where
  | nil
  | one (i : Nat)
  | many (l : List Nat)
deriving DecidableEq

/-- The per-scope callback of the candidate enumeration (source lines mapping
over `sourceCode.scopeManager.scopes`).  The block-scope filter predicate in
the source is the truthy string literal `ReturnStatement` (or-ed with the
supported-body test), so it keeps every statement; it is modelled as the
constantly true predicate. -/
def scopeContrib (a : Arena) (s : Scope) : ScopeContrib :=
  match getN a s.block with
  | none => .nil
  | some blk =>
    if s.type == "function" && isFunctionType blk then
      match blk.body.bind (getN a) with
      | none => .nil
      | some bodyNode =>
        match bodyNode.bodyList with
        | none => .one s.block
        | some stmts =>
          let retStatement := stmts.filter (fun i =>
            match getN a i with
            | some n => n.type == "ReturnStatement" || isSupportedBodyType n
            | none => false)
          if retStatement.length != 0 then
            if stmts.length = 0 then .nil else .many retStatement
          else .nil
    else if s.type == "block" && blk.type == "BlockStatement" then
      match blk.bodyList with
      | none => .nil
      | some stmts =>
        let retStatement := stmts.filter (fun _ => true)
        if retStatement.length != 0 then
          if stmts.length = 0 then .nil else .many retStatement
        else .nil
    else if s.type == "switch" && blk.type == "SwitchStatement" then
      .one s.block
    else if s.type == "for" &&
        (match blk.body.bind (getN a) with
         | some b => b.type != "BlockStatement"
         | none => false) then
      match blk.body with
      | some b => .one b
      | none => .nil
    else .nil

/-- The `.filter((scope) => scope !== null && scope.length !== 0)` applied to
the per-scope results: `null` is dropped, a single node is kept (its `length`
is `undefined`, which differs from `0`), an empty array is dropped. -/
def contribKeep : ScopeContrib → Bool
  | .nil => false
  | .one _ => true
  | .many l => l.length != 0

/-- The values a kept contribution spreads into the flattened candidate
list. -/
def contribVals : ScopeContrib → List Nat
  | .nil => []
  | .one i => [i]
  | .many l => l

/-- Filter and flatten the per-scope contributions into the candidate set. -/
def contribJoin (cs : List ScopeContrib) : List Nat :=
  ((cs.filter contribKeep).map contribVals).flatten

/-- The reassignment `node = node.value ? node.value : node` performed (only)
on function-like input before the candidates are resolved; the parent walk
compares against this node. -/
def jsxTarget (a : Arena) (nodeId : Nat) : Nat :=
  match getN a nodeId with
  | some node =>
    if isFunctionType node then
      match node.value with
      | some v => v
      | none => nodeId
    else nodeId
  | none => nodeId

/-- An element of the final resolver result: the top-level flatten keeps the
`false` values produced by `loopNodes` (no trailing filter is applied there),
so the result array can contain both nodes and `false`. -/
inductive JSVal where
  | fls
  | node (i : Nat)
deriving DecidableEq

/-- How one `loopNodes` result appears in the final, unfiltered flatten. -/
def resToJSVals : LoopRes → List JSVal
  | .fls => [.fls]
  | .one i => [.node i]
  | .many l => l.map .node

/-- The declared result of `findJSXReturnStatement`: `false` or an array. -/
inductive ResolveResult where
  | notFound
  | nodes (vs : List JSVal)
deriving DecidableEq

/-- JS truthiness of the `bodyNodes` variable at the final `if (bodyNodes)`:
it always holds an array by then, and arrays are objects, hence truthy even
when empty. -/
def jsTruthyArray (_arr : List Nat) : Bool :=
  true

/-- Source `findJSXReturnStatement`.  `scopes` models
`context.getSourceCode().scopeManager.scopes`; `none` models running out of
fuel. -/
def findJSXReturnStatement (a : Arena) (scopes : List Scope) (nodeId : Nat)
    (fuel : Nat) : Option ResolveResult :=
  match getN a nodeId with
  | none => none
  | some node =>
    let bodyNodes0 : List Nat :=
      if node.type == "ReturnStatement" || node.type == "YieldExpression" then [nodeId]
      else []
    let target := jsxTarget a nodeId
    let bodyNodes : List Nat :=
      if isFunctionType node then contribJoin (scopes.map (scopeContrib a))
      else bodyNodes0
    if jsTruthyArray bodyNodes then
      match optionMapList (fun i => loopNodes a target fuel (some i)) bodyNodes with
      | some rs => some (.nodes (rs.map resToJSVals).flatten)
      | none => none
    else some .notFound

/-! ## The direct return locator `findReturnStatement` -/

/-- The statement array of a node-valued body: `x.body.body` in the source. -/
def bodyBody (a : Arena) (n : Node) : Option (List Nat) :=
  match n.body.bind (getN a) with
  | some b => b.bodyList
  | none => none

/-- The backward scan `loopNodes` inside `findReturnStatement`: `k` is one
past the index inspected next, walking the list back to front.  On a switch
the scan continues with the last case only (the inner backward loop returns
on its first iteration); a switch without cases lets the outer loop continue.
`some (some i)` models returning node `i`, `some none` models returning
`false`, `none` models fuel exhaustion or a malformed access. -/
def rScanGo (a : Arena) : Nat → List Nat → Nat → Option (Option Nat)
  | 0, _, _ => none
  | fuel + 1, nodes, k =>
    match k with
    | 0 => some none
    | j + 1 =>
      match nodes[j]? with
      | none => none
      | some i =>
        match getN a i with
        | none => none
        | some n =>
          if n.type == "ReturnStatement" then some (some i)
          else if n.type == "SwitchStatement" then
            match n.cases.getLast? with
            | some c =>
              match c.consequent with
              | some cons => rScanGo a fuel cons cons.length
              | none => none
            | none => rScanGo a fuel nodes j
          else rScanGo a fuel nodes j

/-- Source `findReturnStatement`: guard on the two body paths, pick
`node.value.body.body` when a value is present and `node.body.body`
otherwise, and scan that list back to front. -/
def findReturnStatement (a : Arena) (fuel : Nat) (node : Node) :
    Option (Option Nat) :=
  let valueBB : Option (List Nat) :=
    match node.value.bind (getN a) with
    | some v => bodyBody a v
    | none => none
  let ownBB : Option (List Nat) := bodyBody a node
  if valueBB = none ∧ ownBB = none then some none
  else
    match (if node.value.isSome then valueBB else ownBB) with
    | some bodyNodes => rScanGo a fuel bodyNodes bodyNodes.length
    | none => none

/-! ## Helper lemmas about `optionMapList` -/

/-- `optionMapList` over an append splits into the two halves. -/
theorem optionMapList_append {a b : Type} (f : a → Option b) (l1 l2 : List a) :
    optionMapList f (l1 ++ l2) =
      match optionMapList f l1, optionMapList f l2 with
      | some r1, some r2 => some (r1 ++ r2)
      | _, _ => none := by
  induction l1 with
  | nil =>
    rcases h2 : optionMapList f l2 with _ | r2 <;> simp [optionMapList, h2]
  | cons x xs ih =>
    rcases hx : f x with _ | y <;>
      rcases hxs : optionMapList f xs with _ | ys <;>
        rcases h2 : optionMapList f l2 with _ | r2 <;>
          simp [optionMapList, hx, hxs, h2] <;>
            simp [ih, hxs, h2]

/-- Every element of a successful `optionMapList` output comes from some input
element. -/
theorem optionMapList_mem {a b : Type} (f : a → Option b) :
    ∀ (l : List a) (rs : List b), optionMapList f l = some rs →
      ∀ r ∈ rs, ∃ x ∈ l, f x = some r
  | [], rs, h => by
    obtain rfl : ([] : List b) = rs := Option.some.inj h
    intro r hr
    simp at hr
  | x :: xs, rs, h => by
    rcases hx : f x with _ | y <;> rcases hxs : optionMapList f xs with _ | ys <;>
      simp only [optionMapList, hx, hxs] at h <;>
        try exact Option.noConfusion h
    obtain rfl : y :: ys = rs := Option.some.inj h
    intro r hr
    rcases List.mem_cons.mp hr with rfl | hr2
    · exact ⟨x, List.mem_cons_self x xs, hx⟩
    · obtain ⟨z, hz, hfz⟩ := optionMapList_mem f xs ys hxs r hr2
      exact ⟨z, List.mem_cons_of_mem x hz, hfz⟩

/-! ## Concrete arenas used by the resolver claims -/

/-- C1 arena: a lone arrow function; with no scopes the enumeration yields no
candidate at all. -/
def c1arena : Arena :=
  ⟨[⟨0, "ArrowFunctionExpression", none, none, none, none, none, some 1, none, []⟩]⟩

/-- C8 arena: a function whose body is a switch with one return-bearing case
and one case with an empty consequent. -/
def c8arena : Arena := ⟨[
  ⟨0, "FunctionDeclaration", none, none, none, none, none, some 1, none, []⟩,
  ⟨1, "BlockStatement", some 0, none, none, none, none, none, some [2], []⟩,
  ⟨2, "SwitchStatement", some 1, none, none, none, none, none, none,
    [⟨some [3]⟩, ⟨some []⟩]⟩,
  ⟨3, "ReturnStatement", some 2, none, none, none, none, none, none, []⟩]⟩

/-! ## C1: the resolver always returns a list -/

/-- C1 counterexample: for a function-like node whose scope enumeration yields
zero candidates the resolver returns the empty list, not the distinguished
value `false`. -/
theorem c1_counterexample :
    findJSXReturnStatement c1arena [] 0 9 = some (ResolveResult.nodes [])
    ∧ contribJoin (([] : List Scope).map (scopeContrib c1arena)) = []
    ∧ ResolveResult.nodes [] ≠ ResolveResult.notFound := by
  refine ⟨by decide, by decide, by decide⟩

/-- C1 amended: whenever `findJSXReturnStatement` completes it returns an
array (empty when nothing qualified); the `return false` branch is dead code
because the candidate variable always holds an array and arrays are truthy. -/
theorem c1_amended (a : Arena) (scopes : List Scope) (nodeId fuel : Nat)
    (r : ResolveResult)
    (h : findJSXReturnStatement a scopes nodeId fuel = some r) :
    ∃ vs, r = ResolveResult.nodes vs := by
  rw [findJSXReturnStatement] at h
  rcases hg : getN a nodeId with _ | node <;> rw [hg] at h
  · exact absurd h (by simp)
  · simp only [jsTruthyArray, if_true] at h
    split at h
    · exact ⟨_, (Option.some.inj h).symm⟩
    · exact absurd h (by simp)

/-- Witness for C1 amended, at the concrete zero-candidate run. -/
theorem c1_amended_witness :
    ∃ vs, ResolveResult.nodes ([] : List JSVal) = ResolveResult.nodes vs :=
  c1_amended c1arena [] 0 9 (ResolveResult.nodes []) (by decide)

/-! ## C8: switch cases contribute independently -/

/-- A case with an empty or absent consequent contributes nothing (its JS
`false` is removed by the trailing filter). -/
theorem switchCaseContrib_empty (rcall : Option Nat → Option LoopRes) (ec : SwitchCase)
    (hec : ec.consequent = none ∨ ec.consequent = some []) :
    switchCaseContrib rcall ec = some [] := by
  rcases hec with h | h <;> simp [switchCaseContrib, h]

/-- C8: in the switch reduction of the resolver, a case with an empty (or
absent) consequent contributes nothing and can be deleted without changing
the result; the cases contribute independently, concatenating in order; this
is exactly what `loopNodes` computes on a switch node; and on the concrete
switch with a return-bearing case A and an empty case B only the statement of
case A is resolved. -/
theorem c8_switch_cases :
    (∀ (rcall : Option Nat → Option LoopRes) (cs1 cs2 : List SwitchCase) (ec : SwitchCase),
      (ec.consequent = none ∨ ec.consequent = some []) →
      switchContrib rcall (cs1 ++ ec :: cs2) = switchContrib rcall (cs1 ++ cs2))
    ∧ (∀ (rcall : Option Nat → Option LoopRes) (cs1 cs2 : List SwitchCase)
        (l1 l2 : List Nat),
      switchContrib rcall cs1 = some l1 → switchContrib rcall cs2 = some l2 →
      switchContrib rcall (cs1 ++ cs2) = some (l1 ++ l2))
    ∧ (∀ (a : Arena) (target fuel bid : Nat) (bnode : Node),
      getN a bid = some bnode → bnode.type = "SwitchStatement" →
      loopNodes a target (fuel + 1) (some bid) =
        match switchContrib (fun o => loopNodes a target fuel o) bnode.cases with
        | some l => some (.many l)
        | none => none)
    ∧ loopNodes c8arena 0 9 (some 2) = some (.many [3]) := by
  refine ⟨?_, ?_, ?_, by decide⟩
  · intro rcall cs1 cs2 ec hec
    have he := switchCaseContrib_empty rcall ec hec
    rcases h1 : optionMapList (switchCaseContrib rcall) cs1 with _ | r1 <;>
      rcases h2 : optionMapList (switchCaseContrib rcall) cs2 with _ | r2 <;>
        simp [switchContrib, optionMapList_append, optionMapList, he, h1, h2]
  · intro rcall cs1 cs2 l1 l2 h1 h2
    rcases hm1 : optionMapList (switchCaseContrib rcall) cs1 with _ | r1 <;>
      rw [switchContrib, hm1] at h1
    · exact absurd h1 (by simp)
    rcases hm2 : optionMapList (switchCaseContrib rcall) cs2 with _ | r2 <;>
      rw [switchContrib, hm2] at h2
    · exact absurd h2 (by simp)
    simp only [Option.some.injEq] at h1 h2
    simp [switchContrib, optionMapList_append, hm1, hm2, h1, h2]
  · intro a target fuel bid bnode h hty
    simp [loopNodes, loopNodesRest, h, hty, isFunctionType, isSupportedBodyType]

/-- Witness for C8: deleting the empty case B of the concrete switch leaves
the contribution unchanged. -/
theorem c8_switch_cases_witness :
    switchContrib (fun o => loopNodes c8arena 0 8 o) [⟨some [3]⟩, ⟨some []⟩] =
      switchContrib (fun o => loopNodes c8arena 0 8 o) [⟨some [3]⟩] :=
  c8_switch_cases.1 (fun o => loopNodes c8arena 0 8 o) [⟨some [3]⟩] [] ⟨some []⟩
    (Or.inr rfl)

/-! ## C6: the direct return locator -/

/-- A statement the backward scan passes over without concluding: present in
the arena, neither a return statement nor a switch statement. -/
def scanSkips (a : Arena) (i : Nat) : Prop :=
  ∃ n, getN a i = some n ∧ n.type ≠ "ReturnStatement" ∧ n.type ≠ "SwitchStatement"

/-- One backward step of the scan over a skippable statement. -/
theorem rScanGo_skip (a : Arena) (f : Nat) (nodes : List Nat) (j i : Nat)
    (hj : nodes[j]? = some i) (hs : scanSkips a i) :
    rScanGo a (f + 1) nodes (j + 1) = rScanGo a f nodes j := by
  obtain ⟨n, hg, h1, h2⟩ := hs
  simp [rScanGo, hj, hg, h1, h2]

/-- The scan below position `k` never looks at elements appended behind `k`. -/
theorem rScanGo_prefix (a : Arena) :
    ∀ (f : Nat) (nodes ext : List Nat) (k : Nat), k ≤ nodes.length →
      rScanGo a f (nodes ++ ext) k = rScanGo a f nodes k := by
  intro f
  induction f with
  | zero => intro nodes ext k _; rfl
  | succ f ih =>
    intro nodes ext k hk
    match k with
    | 0 => rfl
    | j + 1 =>
      have hj : j < nodes.length := Nat.lt_of_lt_of_le (Nat.lt_succ_self j) hk
      simp only [rScanGo, List.getElem?_append_left hj]
      rcases h : nodes[j]? with _ | i <;> simp only [h]
      rcases hg : getN a i with _ | n <;> simp only [hg]
      by_cases hr : n.type = "ReturnStatement"
      · simp [hr]
      · by_cases hsw : n.type = "SwitchStatement"
        · simp [hr, hsw]
          rcases hc : n.cases.getLast? with _ | c <;> simp only [hc]
          exact ih nodes ext j (Nat.le_of_lt hj)
        · simp [hr, hsw]
          exact ih nodes ext j (Nat.le_of_lt hj)

/-- Scanning a list ending in a skippable statement reduces to scanning the
remaining prefix. -/
theorem rScanGo_drop_last (a : Arena) (f : Nat) (pre : List Nat) (p : Nat)
    (hs : scanSkips a p) :
    rScanGo a (f + 1) (pre ++ [p]) (pre ++ [p]).length = rScanGo a f pre pre.length := by
  have hp : (pre ++ [p])[pre.length]? = some p := List.getElem?_concat_length pre p
  have h1 : (pre ++ [p]).length = pre.length + 1 := by simp
  rw [h1, rScanGo_skip a f (pre ++ [p]) pre.length p hp hs,
    rScanGo_prefix a f pre [p] pre.length (le_refl _)]

/-- A scan over nothing but skippable statements returns `false`. -/
theorem rScanGo_exhaust (a : Arena) :
    ∀ (stmts : List Nat) (f : Nat), stmts.length < f →
      (∀ i ∈ stmts, scanSkips a i) →
      rScanGo a f stmts stmts.length = some none := by
  intro stmts
  induction stmts using List.reverseRecOn with
  | nil =>
    intro f hf _
    match f, hf with
    | g + 1, _ => rfl
  | append_singleton ss p ih =>
    intro f hf hskips
    match f, hf with
    | g + 1, hf =>
      rw [rScanGo_drop_last a g ss p (hskips p (by simp))]
      refine ih g ?_ (fun i hi => hskips i (by simp [hi]))
      have : ss.length + 1 < g + 1 := by simpa using hf
      omega

/-- The scan returns the last return statement when everything behind it is
skippable. -/
theorem rScanGo_find_return (a : Arena) :
    ∀ (post : List Nat) (f : Nat) (pre : List Nat) (r : Nat) (rn : Node),
      post.length < f → (∀ i ∈ post, scanSkips a i) →
      getN a r = some rn → rn.type = "ReturnStatement" →
      rScanGo a f (pre ++ r :: post) (pre ++ r :: post).length = some (some r) := by
  intro post
  induction post using List.reverseRecOn with
  | nil =>
    intro f pre r rn hf _ hg ht
    match f, hf with
    | g + 1, _ =>
      show rScanGo a (g + 1) (pre ++ [r]) (pre ++ [r]).length = some (some r)
      have hlen : (pre ++ [r]).length = pre.length + 1 := by simp
      rw [hlen]
      have hp : (pre ++ [r])[pre.length]? = some r := List.getElem?_concat_length pre r
      simp [rScanGo, hp, hg, ht]
  | append_singleton ps p ih =>
    intro f pre r rn hf hskips hg ht
    have hre : pre ++ r :: (ps ++ [p]) = (pre ++ r :: ps) ++ [p] := by
      simp
    rw [hre]
    match f, hf with
    | g + 1, hf =>
      rw [rScanGo_drop_last a g (pre ++ r :: ps) p (hskips p (by simp))]
      refine ih g pre r rn ?_ (fun i hi => hskips i (by simp [hi])) hg ht
      have : ps.length + 1 < g + 1 := by simpa using hf
      omega

/-- C6 arena: a function whose body ends in a switch whose last case holds no
return even though the first case does. -/
def c6arena : Arena := ⟨[
  ⟨0, "FunctionDeclaration", none, none, none, none, none, some 1, none, []⟩,
  ⟨1, "BlockStatement", some 0, none, none, none, none, none, some [2], []⟩,
  ⟨2, "SwitchStatement", some 1, none, none, none, none, none, none,
    [⟨some [3]⟩, ⟨some [4]⟩]⟩,
  ⟨3, "ReturnStatement", some 2, none, none, none, none, none, none, []⟩,
  ⟨4, "ExpressionStatement", some 2, none, none, none, none, none, none, []⟩]⟩

/-- The function node of `c6arena`. -/
def c6fn : Node := ⟨0, "FunctionDeclaration", none, none, none, none, none, some 1, none, []⟩

/-- Witness arena for C6: a body `[return; expression]`. -/
def c6arenaB : Arena := ⟨[
  ⟨0, "FunctionDeclaration", none, none, none, none, none, some 1, none, []⟩,
  ⟨1, "BlockStatement", some 0, none, none, none, none, none, some [2, 3], []⟩,
  ⟨2, "ReturnStatement", some 1, none, none, none, none, none, none, []⟩,
  ⟨3, "ExpressionStatement", some 1, none, none, none, none, none, none, []⟩]⟩

/-- The function node of `c6arenaB`. -/
def c6fnB : Node := ⟨0, "FunctionDeclaration", none, none, none, none, none, some 1, none, []⟩

/-- `findReturnStatement` on a plain function reduces to the backward scan of
its statement list. -/
theorem findReturn_run (a : Arena) (f : Nat) (node : Node) (bid : Nat) (bn : Node)
    (stmts : List Nat) (hv : node.value = none) (hb : node.body = some bid)
    (hgb : getN a bid = some bn) (hbl : bn.bodyList = some stmts) :
    findReturnStatement a f node = rScanGo a f stmts stmts.length := by
  simp [findReturnStatement, bodyBody, hv, hb, hgb, hbl]

/-- C6: `findReturnStatement` returns `false` when the body is absent; it
returns the first return statement found scanning the top-level statement
list back to front; on a trailing switch it recurses into the last case
consequent only, its result standing regardless of earlier cases or earlier
statements; it returns `false` when the scan exhausts; and on the concrete
trailing switch whose last case lacks a return it yields `false` even though
an earlier case contains one. -/
theorem c6_find_return_statement :
    (∀ (a : Arena) (fuel : Nat) (node : Node), node.value = none →
      bodyBody a node = none → findReturnStatement a fuel node = some none)
    ∧ (∀ (a : Arena) (fuel : Nat) (node : Node) (bid : Nat) (bn : Node)
        (pre post : List Nat) (r : Nat) (rn : Node),
        node.value = none → node.body = some bid → getN a bid = some bn →
        bn.bodyList = some (pre ++ r :: post) →
        post.length < fuel →
        (∀ i ∈ post, scanSkips a i) →
        getN a r = some rn → rn.type = "ReturnStatement" →
        findReturnStatement a fuel node = some (some r))
    ∧ (∀ (a : Arena) (fuel : Nat) (node : Node) (bid : Nat) (bn : Node)
        (pre : List Nat) (sw : Nat) (swn : Node) (c : SwitchCase) (cons : List Nat),
        node.value = none → node.body = some bid → getN a bid = some bn →
        bn.bodyList = some (pre ++ [sw]) →
        getN a sw = some swn → swn.type = "SwitchStatement" →
        swn.cases.getLast? = some c → c.consequent = some cons →
        findReturnStatement a (fuel + 1) node = rScanGo a fuel cons cons.length)
    ∧ (∀ (a : Arena) (fuel : Nat) (node : Node) (bid : Nat) (bn : Node)
        (stmts : List Nat),
        node.value = none → node.body = some bid → getN a bid = some bn →
        bn.bodyList = some stmts → stmts.length < fuel →
        (∀ i ∈ stmts, scanSkips a i) →
        findReturnStatement a fuel node = some none)
    ∧ findReturnStatement c6arena 9 c6fn = some none := by
  refine ⟨?_, ?_, ?_, ?_, by decide⟩
  · intro a fuel node hv hbb
    simp [findReturnStatement, hv, hbb]
  · intro a fuel node bid bn pre post r rn hv hb hgb hbl hfuel hskips hg ht
    rw [findReturn_run a fuel node bid bn (pre ++ r :: post) hv hb hgb hbl]
    exact rScanGo_find_return a post fuel pre r rn hfuel hskips hg ht
  · intro a fuel node bid bn pre sw swn c cons hv hb hgb hbl hgs hts hlast hcons
    rw [findReturn_run a (fuel + 1) node bid bn (pre ++ [sw]) hv hb hgb hbl]
    have hp : (pre ++ [sw])[pre.length]? = some sw := List.getElem?_concat_length pre sw
    have hlen : (pre ++ [sw]).length = pre.length + 1 := by simp
    rw [hlen]
    simp [rScanGo, hp, hgs, hts, hlast, hcons]
  · intro a fuel node bid bn stmts hv hb hgb hbl hfuel hskips
    rw [findReturn_run a fuel node bid bn stmts hv hb hgb hbl]
    exact rScanGo_exhaust a stmts fuel hfuel hskips

/-- Witness for C6: on a body `[return; expression]` the scan skips the
trailing expression and returns the return statement (node 2). -/
theorem c6_find_return_statement_witness :
    findReturnStatement c6arenaB 9 c6fnB = some (some 2) :=
  c6_find_return_statement.2.1 c6arenaB 9 c6fnB 1
    ⟨1, "BlockStatement", some 0, none, none, none, none, none, some [2, 3], []⟩
    [] [3] 2
    ⟨2, "ReturnStatement", some 1, none, none, none, none, none, none, []⟩
    rfl rfl (by decide) (by decide) (by decide)
    (by
      intro i hi
      simp only [List.mem_singleton] at hi
      subst hi
      exact ⟨⟨3, "ExpressionStatement", some 1, none, none, none, none, none, none, []⟩,
        by decide, by decide, by decide⟩)
    (by decide) rfl

/-! ## C2: boundary opacity of the resolver -/

/-- `i` is the expression of some expression statement of the arena (the one
resolver path that emits a node without running the parent walk). -/
def exprChildOf (a : Arena) (i : Nat) : Prop :=
  ∃ n ∈ a.nodes, n.type = "ExpressionStatement" ∧ n.expression = some i

/-- The ancestor chain of `i`: `i`, its parent, the parent of that, and so
on, cut off by the fuel or a missing parent. -/
def ancestorChain (a : Arena) : Nat → Nat → List Nat
  | 0, _ => []
  | f + 1, i =>
    i :: (match (getN a i).bind Node.parent with
      | some p => ancestorChain a f p
      | none => [])

/-- Spec-side boundary test: a function-like node other than the target, or
the target itself. -/
def isBoundary (a : Arena) (target i : Nat) : Bool :=
  (match getN a i with
   | some n => isFunctionType n
   | none => false) && i != target || i == target

/-- Spec-side crossing predicate: walking up from `b`, the first boundary
node hit is a function-like node other than the target — `b` belongs to a
more deeply nested function-like descendant (or to a foreign function). -/
def crossesFunctionFirst (a : Arena) (target fuel b : Nat) : Prop :=
  ∃ j, (ancestorChain a fuel b).find? (isBoundary a target) = some j ∧ j ≠ target

/-- If the operational walk accepts `b`, then on the ancestor chain the first
boundary node (if the fuel reaches one) is the target itself. -/
theorem parentWalk_accept_chain (a : Arena) (target : Nat) :
    ∀ (f b : Nat), parentWalk a target f (some b) = .accept →
      ∀ f2, (ancestorChain a f2 b).find? (isBoundary a target) = none ∨
            (ancestorChain a f2 b).find? (isBoundary a target) = some target := by
  intro f
  induction f with
  | zero => intro b h; exact WalkRes.noConfusion h
  | succ f ih =>
    intro b h f2
    simp only [parentWalk] at h
    rcases hA : ((match getN a b with
        | some n => isFunctionType n
        | none => false) && (b != target)) with _ | _ <;> rw [hA] at h
    case true => rw [if_pos rfl] at h; exact WalkRes.noConfusion h
    rw [if_neg (by simp)] at h
    rcases hB : (b == target) with _ | _ <;> rw [hB] at h
    case true =>
      have hbt : b = target := by simpa using hB
      cases f2 with
      | zero => exact Or.inl rfl
      | succ f2 =>
        right
        have hb : isBoundary a target b = true := by
          simp [isBoundary, hB]
        rw [ancestorChain, List.find?_cons_of_pos _ hb, hbt]
    rw [if_neg (by simp)] at h
    rcases hp : (getN a b).bind Node.parent with _ | p <;> rw [hp] at h
    · simp [parentWalk] at h
    · cases f2 with
      | zero => exact Or.inl rfl
      | succ f2 =>
        have hnb : isBoundary a target b = false := by
          simp only [isBoundary, hA, hB, Bool.or_false]
        simp only [ancestorChain, hp]
        rw [List.find?_cons_of_neg _ (by simp [hnb])]
        exact ih p h f2

/-- Origin of the members of a switch-case contribution: each one came out of
the recursive call on some statement of some consequent. -/
theorem switchCaseContrib_origin (rcall : Option Nat → Option LoopRes)
    (P : Nat → Prop)
    (hrc : ∀ o r, rcall o = some r → ∀ i ∈ resToVals r, P i)
    (sc : SwitchCase) (li : List Nat) (h : switchCaseContrib rcall sc = some li) :
    ∀ i ∈ li, P i := by
  intro i hi
  rw [switchCaseContrib] at h
  rcases hc : sc.consequent with _ | cons <;> simp only [hc] at h
  · obtain rfl : ([] : List Nat) = li := Option.some.inj h
    simp at hi
  · by_cases hne : (cons.length != 0) = true
    · rw [if_pos hne] at h
      rcases hm : optionMapList (fun i => rcall (some i)) cons with _ | rs <;>
        simp only [hm] at h
      · exact Option.noConfusion h
      obtain rfl : (rs.map resToVals).flatten = li := Option.some.inj h
      obtain ⟨vl, hvl, hivl⟩ := List.mem_flatten.mp hi
      obtain ⟨lr, hlr, rfl⟩ := List.mem_map.mp hvl
      obtain ⟨s, _, hrs⟩ := optionMapList_mem _ cons rs hm lr hlr
      exact hrc (some s) lr hrs i hivl
    · rw [if_neg hne] at h
      obtain rfl : ([] : List Nat) = li := Option.some.inj h
      simp at hi

/-- Origin of the members of a whole switch contribution. -/
theorem switchContrib_origin (rcall : Option Nat → Option LoopRes)
    (P : Nat → Prop)
    (hrc : ∀ o r, rcall o = some r → ∀ i ∈ resToVals r, P i)
    (cs : List SwitchCase) (l : List Nat) (h : switchContrib rcall cs = some l) :
    ∀ i ∈ l, P i := by
  intro i hi
  rw [switchContrib] at h
  rcases hm : optionMapList (switchCaseContrib rcall) cs with _ | ls <;>
    simp only [hm] at h
  · exact Option.noConfusion h
  obtain rfl : ls.flatten = l := Option.some.inj h
  obtain ⟨li, hli, hii⟩ := List.mem_flatten.mp hi
  obtain ⟨sc, _, hsome⟩ := optionMapList_mem _ cs ls hm li hli
  exact switchCaseContrib_origin rcall P hrc sc li hsome i hii

/-- Origin of the members of a `loopNodesRest` result: each one is either the
expression of this expression statement or came out of a recursive call. -/
theorem loopNodesRest_origin (rcall : Option Nat → Option LoopRes) (a : Arena)
    (P : Nat → Prop) (bnode : Node)
    (hexpr : bnode.type = "ExpressionStatement" → ∀ e, bnode.expression = some e → P e)
    (hrc : ∀ o r, rcall o = some r → ∀ i ∈ resToVals r, P i)
    (r : LoopRes) (h : loopNodesRest rcall a bnode = some r) :
    ∀ i ∈ resToVals r, P i := by
  intro i hi
  rw [loopNodesRest] at h
  by_cases h1 : bnode.type = "ExpressionStatement"
  · rw [if_pos (by simp [h1])] at h
    rcases he : bnode.expression with _ | e <;> simp only [he] at h
    · obtain rfl : LoopRes.fls = r := Option.some.inj h
      simp [resToVals] at hi
    · obtain rfl : LoopRes.one e = r := Option.some.inj h
      simp only [resToVals, List.mem_singleton] at hi
      subst hi
      exact hexpr h1 i he
  · rw [if_neg (by simp [h1])] at h
    by_cases h2 : bnode.type = "IfStatement"
    · rw [if_pos (by simp [h2])] at h
      by_cases h3 : bnode.alternate = none
      · rw [if_pos (by simp [h3])] at h
        rcases hcn : bnode.consequent.bind (getN a) with _ | c <;> simp only [hcn] at h
        · obtain rfl : LoopRes.fls = r := Option.some.inj h
          simp [resToVals] at hi
        · by_cases h4 : (c.type != "BlockStatement") = true
          · rw [if_pos h4] at h
            exact hrc bnode.consequent r h i hi
          · rw [if_neg h4] at h
            obtain rfl : LoopRes.fls = r := Option.some.inj h
            simp [resToVals] at hi
      · rw [if_neg (by simp [h3])] at h
        rcases hm : optionMapList rcall
            ((match bnode.consequent.bind (getN a) with
              | some c => if c.type != "BlockStatement" then [bnode.consequent] else []
              | none => []) ++
             (match bnode.alternate.bind (getN a) with
              | some alt => if alt.type != "BlockStatement" then [bnode.alternate] else []
              | none => [])) with _ | rs <;> simp only [hm] at h
        · exact Option.noConfusion h
        · obtain rfl : LoopRes.many (rs.map resToVals).flatten = r := Option.some.inj h
          simp only [resToVals] at hi
          obtain ⟨vl, hvl, hivl⟩ := List.mem_flatten.mp hi
          obtain ⟨lr, hlr, rfl⟩ := List.mem_map.mp hvl
          obtain ⟨o, _, hro⟩ := optionMapList_mem rcall _ rs hm lr hlr
          exact hrc o lr hro i hivl
    · rw [if_neg (by simp [h2])] at h
      by_cases h5 : (isSupportedBodyType bnode &&
          (match bnode.body.bind (getN a) with
           | some b => b.type != "BlockStatement"
           | none => false)) = true
      · rw [if_pos h5] at h
        exact hrc bnode.body r h i hi
      · rw [if_neg h5] at h
        by_cases h6 : bnode.type = "SwitchStatement"
        · rw [if_pos (by simp [h6])] at h
          rcases hswc : switchContrib rcall bnode.cases with _ | l <;> simp only [hswc] at h
          · exact Option.noConfusion h
          · obtain rfl : LoopRes.many l = r := Option.some.inj h
            simp only [resToVals] at hi
            exact switchContrib_origin rcall P hrc bnode.cases l hswc i hi
        · rw [if_neg (by simp [h6])] at h
          obtain rfl : LoopRes.fls = r := Option.some.inj h
          simp [resToVals] at hi

/-- Every node a `loopNodes` run emits was either accepted by the parent walk
or is the expression of an expression statement of the arena. -/
theorem loopNodes_mem_origin (a : Arena) (target : Nat) :
    ∀ (fuel : Nat) (o : Option Nat) (r : LoopRes),
      loopNodes a target fuel o = some r →
      ∀ i ∈ resToVals r,
        (∃ f, parentWalk a target f (some i) = WalkRes.accept) ∨ exprChildOf a i := by
  intro fuel
  induction fuel with
  | zero =>
    intro o r h i hi
    match o, h with
    | none, h =>
      obtain rfl : LoopRes.fls = r := Option.some.inj h
      simp [resToVals] at hi
  | succ fuel ih =>
    intro o r h i hi
    match o, h with
    | none, h =>
      obtain rfl : LoopRes.fls = r := Option.some.inj h
      simp [resToVals] at hi
    | some bid, h =>
      simp only [loopNodes] at h
      rcases hg : getN a bid with _ | bnode <;> simp only [hg] at h
      · obtain rfl : LoopRes.fls = r := Option.some.inj h
        simp [resToVals] at hi
      · have hmem : bnode ∈ a.nodes := List.mem_of_find?_eq_some hg
        have hrest : ∀ r2, loopNodesRest (fun o => loopNodes a target fuel o) a bnode = some r2 →
            ∀ j ∈ resToVals r2,
              (∃ f, parentWalk a target f (some j) = WalkRes.accept) ∨ exprChildOf a j :=
          fun r2 h2 => loopNodesRest_origin _ a _ bnode
            (fun ht e hee => Or.inr ⟨bnode, hmem, ht, hee⟩)
            (fun o2 r3 h3 => ih o2 r3 h3) r2 h2
        by_cases hw : (bnode.type == "ReturnStatement" || bnode.type == "YieldExpression" ||
            isFunctionType bnode) = true
        · rw [if_pos hw] at h
          rcases hpw : parentWalk a target (fuel + 1) (some bid) with _ | _ | _ | _ <;>
            simp only [hpw] at h
          · obtain rfl : LoopRes.one bid = r := Option.some.inj h
            simp only [resToVals, List.mem_singleton] at hi
            subst hi
            exact Or.inl ⟨fuel + 1, hpw⟩
          · obtain rfl : LoopRes.fls = r := Option.some.inj h
            simp [resToVals] at hi
          · exact hrest r h i hi
          · exact Option.noConfusion h
        · rw [if_neg hw] at h
          exact hrest r h i hi

/-- C2 arena: a function `f` (node 0) containing a nested generator `g`
(node 2) whose body is the expression statement `yield ...` (nodes 4 and 5);
the scope list is the whole-program scope list, as
`sourceCode.scopeManager.scopes` is. -/
def c2arena : Arena := ⟨[
  ⟨0, "FunctionDeclaration", none, none, none, none, none, some 1, none, []⟩,
  ⟨1, "BlockStatement", some 0, none, none, none, none, none, some [2], []⟩,
  ⟨2, "FunctionDeclaration", some 1, none, none, none, none, some 3, none, []⟩,
  ⟨3, "BlockStatement", some 2, none, none, none, none, none, some [4], []⟩,
  ⟨4, "ExpressionStatement", some 3, none, some 5, none, none, none, none, []⟩,
  ⟨5, "YieldExpression", some 4, none, none, none, none, none, none, []⟩,
  ⟨6, "Program", none, none, none, none, none, none, none, []⟩]⟩

/-- The scope list of `c2arena`: the global scope and the two function
scopes. -/
def c2scopes : List Scope := [⟨"global", 6⟩, ⟨"function", 0⟩, ⟨"function", 2⟩]

/-- Witness arena for C2: a function whose body is a single return. -/
def c2warena : Arena := ⟨[
  ⟨0, "FunctionDeclaration", none, none, none, none, none, some 1, none, []⟩,
  ⟨1, "BlockStatement", some 0, none, none, none, none, none, some [2], []⟩,
  ⟨2, "ReturnStatement", some 1, none, none, none, none, none, none, []⟩]⟩

/-- A node id appears in the final flatten exactly as it appeared in the
filtered view of its `loopNodes` result. -/
theorem mem_resToJSVals (lr : LoopRes) (i : Nat) (h : JSVal.node i ∈ resToJSVals lr) :
    i ∈ resToVals lr := by
  cases lr with
  | fls => simp [resToJSVals] at h
  | one j =>
    simp only [resToJSVals, List.mem_singleton, JSVal.node.injEq] at h
    simp [resToVals, h]
  | many l =>
    simp only [resToJSVals, List.mem_map] at h
    obtain ⟨x, hx, hxe⟩ := h
    obtain rfl : x = i := by simpa using hxe
    simpa [resToVals] using hx

/-- C2 counterexample: resolving on `f` returns the yield expression of the
nested generator `g` — a yield whose upward walk crosses the function-like
node `g` (id 2) before reaching the target — because an expression statement
is reduced to its expression without any boundary walk. -/
theorem c2_counterexample :
    findJSXReturnStatement c2arena c2scopes 0 9 = some (ResolveResult.nodes [JSVal.node 5])
    ∧ (∃ n, getN c2arena 5 = some n ∧ n.type = "YieldExpression")
    ∧ crossesFunctionFirst c2arena (jsxTarget c2arena 0) 9 5 := by
  refine ⟨by decide,
    ⟨⟨5, "YieldExpression", some 4, none, none, none, none, none, none, []⟩, by decide, rfl⟩,
    ⟨2, by decide, by decide⟩⟩

/-- C2 amended: every *return statement* in the resolver result respects the
boundary: its upward parent walk cannot cross a function-like node other than
the target first.  (The well-formedness hypothesis — an expression statement
never holds a return statement as its expression — is true of every real
syntax tree; yield expressions do leak, as the counterexample shows.) -/
theorem c2_amended (a : Arena) (scopes : List Scope) (nodeId fuel : Nat)
    (vs : List JSVal) (i : Nat) (ni : Node)
    (hwf : ∀ n ∈ a.nodes, n.type = "ExpressionStatement" →
      ∀ e, n.expression = some e → ∀ en, getN a e = some en → en.type ≠ "ReturnStatement")
    (hrun : findJSXReturnStatement a scopes nodeId fuel = some (ResolveResult.nodes vs))
    (hmem : JSVal.node i ∈ vs)
    (hni : getN a i = some ni) (hty : ni.type = "ReturnStatement") :
    ∀ f2, ¬ crossesFunctionFirst a (jsxTarget a nodeId) f2 i := by
  intro f2 hcross
  obtain ⟨j, hfind, hjne⟩ := hcross
  rw [findJSXReturnStatement] at hrun
  rcases hg : getN a nodeId with _ | node <;> simp only [hg] at hrun
  · exact Option.noConfusion hrun
  simp only [jsTruthyArray, if_true] at hrun
  split at hrun
  case _ rs hrs =>
    have hvs : (rs.map resToJSVals).flatten = vs := by
      have := Option.some.inj hrun
      exact ResolveResult.nodes.inj this
    rw [← hvs] at hmem
    obtain ⟨jl, hjl, hij⟩ := List.mem_flatten.mp hmem
    obtain ⟨lr, hlr, rfl⟩ := List.mem_map.mp hjl
    have hiv : i ∈ resToVals lr := mem_resToJSVals lr i hij
    obtain ⟨b, _, hlb⟩ := optionMapList_mem _ _ rs hrs lr hlr
    rcases loopNodes_mem_origin a (jsxTarget a nodeId) fuel (some b) lr hlb i hiv with
      ⟨f, hacc⟩ | ⟨n, hnmem, hnty, hne⟩
    · rcases parentWalk_accept_chain a (jsxTarget a nodeId) f i hacc f2 with hnone | hsome
      · rw [hfind] at hnone
        exact Option.noConfusion hnone
      · rw [hfind] at hsome
        exact hjne (Option.some.inj hsome)
    · exact hwf n hnmem hnty i hne ni hni hty
  case _ hrs => exact Option.noConfusion hrun

/-- Witness for C2 amended: the return statement resolved for the plain
function of `c2warena` crosses no function boundary. -/
theorem c2_amended_witness :
    ¬ crossesFunctionFirst c2warena (jsxTarget c2warena 0) 9 2 :=
  c2_amended c2warena [⟨"function", 0⟩] 0 9 [JSVal.node 2] 2
    ⟨2, "ReturnStatement", some 1, none, none, none, none, none, none, []⟩
    (by
      intro n hn htype e hexpr en hen
      simp only [c2warena, List.mem_cons, List.not_mem_nil, or_false] at hn
      rcases hn with rfl | rfl | rfl <;> simp at htype)
    (by decide) (by decide) (by decide) rfl 9

end ReactAst
